import Mathlib

/-!
Verification of the `split` utility (files `split.cpp` and `find_bound.cpp`):
a tool that splits a record-structured (FASTA) file into pieces of roughly
equal size so that no record is divided between two pieces.

The development is a shallow embedding of the C sources:
* `split_FindBound` — the boundary locator of `find_bound.cpp`;
* `split_CalcUpperBoundOfOutputTransfer`, `split_FillUpperBuffHalfFromInput`,
  `split_WriteOutput`, `split_SplitSource` — the streaming transfer engine of
  `split.cpp`.

Buffers are `List Char`; machine `int64_t` arithmetic is modelled by `Int`
(the C code guards `buff_size <= INT64_MAX / 2`, and the quantities that occur
are all far below overflow for the inputs considered, so no wraparound is
modelled).  I/O is modelled functionally: the input file is a `List Char`
read at a cursor, output pieces are accumulated lists, and the fatal
`SPLIT_ERROR` exits are an explicit error component of the result.

A few Boolean "ghost" fields record, without influencing control flow,
whether specific debug assertions (`SPLIT_ASSERT`) of the C code held at each
of their evaluation points; they let us state claims about those assertions.
-/

/-- Value returned by `split_FindBound` when no element bound was found
(`#define SPLIT_BOUND_NOT_FOUND -12345` in `split.cpp`). -/
def SPLIT_BOUND_NOT_FOUND : Int := -12345

/-- Read a byte of a buffer at a (guaranteed in-range at every use site that
matters) index.  Out-of-range reads return an arbitrary byte, standing for
the indeterminate memory the C code would read; the guards of the embedded
code never let such a byte influence a result under the stated preconditions. -/
def charAt (buff : List Char) (i : Int) : Char :=
  buff.getD i.toNat '\x00'

/-- The search loop of `split_FindBound` (`for ( int64_t i = 0; i < max(...); i++ )`).
`fuel` counts the remaining iterations (the C loop runs for
`max (pb+1) (size-pb)` iterations in total, counted down here), `i` is the
current loop index and `nnl` the running `num_new_lines` counter.

First component: the function's return value (`SPLIT_BOUND_NOT_FOUND` when the
loop exhausts).  Second component (ghost): whether the debug assertion
`SPLIT_ASSERT( num_new_lines <= 2)` at the end of each iteration held at every
iteration actually executed. -/
def split_FindBoundGo (buff : List Char) (pb size : Int) (fb : Bool) :
    Nat → Int → Int → Int × Bool
  | 0, _, _ => (SPLIT_BOUND_NOT_FOUND, true)
  | fuel + 1, i, nnl =>
    let dtl := pb + 1
    let dtu := size - pb
    let ls := if dtl ≤ i then 'a' else charAt buff (pb - i)
    let rs := if dtu ≤ i then 'a' else charAt buff (pb + i)
    if ls = '>' ∧ (i < dtl - 1 ∨ fb = false) then
      (pb - i - 1, true)
    else if rs = '>' ∧ i ≠ 0 then
      (pb + i - 1, true)
    else
      let n1 := if ls = '\n' then nnl + 1 else nnl
      let n2 := if rs = '\n' ∧ i ≠ 0 then n1 + 1 else n1
      if n2 = 2 ∧ dtu - 1 ≤ i ∧ charAt buff (size - 1) = '\n' then
        (size - 1, true)
      else
        let r := split_FindBoundGo buff pb size fb fuel (i + 1) n2
        (r.1, (decide (n2 ≤ 2) && r.2))

/-- Function `split_FindBound` of `find_bound.cpp`: find the bound of an element inside
`buff` closest to the projected bound `pb`.  `size` is `buff_size` and `fb`
is `is_first_block`. -/
def split_FindBound (buff : List Char) (pb size : Int) (fb : Bool) : Int :=
  (split_FindBoundGo buff pb size fb (max (pb + 1) (size - pb)).toNat 0 0).1

/-- Ghost companion of `split_FindBound`: `true` iff the debug assertion
`SPLIT_ASSERT( num_new_lines <= 2)` held at the end of every executed
iteration of the search loop. -/
def split_FindBoundAssertOK (buff : List Char) (pb size : Int) (fb : Bool) : Bool :=
  (split_FindBoundGo buff pb size fb (max (pb + 1) (size - pb)).toNat 0 0).2

/-! ## The streaming transfer engine of `split.cpp` -/

/-- Fatal `SPLIT_ERROR` aborts of the transfer engine that depend on the
data (I/O faults of the host system are outside the model). -/
inductive SplitError
  /-- Message `"No item bound found inside a data chunk. Buffer size should be
  bigger than size of any item"` (in `split_CalcUpperBoundOfOutputTransfer`). -/
  | noBoundFound
  /-- Message `"Couldn't produce the requested number of pieces. Only %ld pieces
  were writted"` — carries `piece_num`, the number of pieces already written. -/
  | cantProduceRequestedPieces (piecesWritten : Int)
deriving DecidableEq

/-- Overwrite the bytes of `buf` starting at position `p` with `src`
(modelling `memcpy`/`read` into a region of the C buffer). -/
def bufWrite (buf : List Char) (p : Nat) (src : List Char) : List Char :=
  buf.take p ++ src ++ buf.drop (p + src.length)

/-- The bytes of `buf` at positions `a` to `b` inclusive (empty when `b < a`). -/
def bufSlice (buf : List Char) (a b : Int) : List Char :=
  (buf.drop a.toNat).take (b - a + 1).toNat

/-- Function `split_FillUpperBuffHalfFromInput`: read a chunk of data from the input
file into the upper half of the double-buffer.  `input` is the input file
contents, `pos` the current read offset of the file descriptor.  Returns the
updated buffer and `bytes_read`.  (The C function's short-read check cannot
fire in this model: a regular file delivers exactly the requested bytes, and
`io_size` never exceeds the unread remainder at any reachable call.) -/
def split_FillUpperBuffHalfFromInput (input : List Char) (pos : Nat)
    (double_buff : List Char) (buff_size bytes_available : Int) :
    List Char × Int :=
  if bytes_available = 0 then
    (double_buff, 0)
  else
    let io_size := if buff_size > bytes_available then bytes_available else buff_size
    (bufWrite double_buff buff_size.toNat ((input.drop pos).take io_size.toNat),
     io_size)

/-- Function `split_WriteOutput`: append bytes `[data_start, data_end]` of the buffer
to an output piece (the C function's short-write check is an I/O fault
outside the model). -/
def split_WriteOutput (piece : List Char) (buff : List Char)
    (data_start data_end : Int) : List Char :=
  piece ++ bufSlice buff data_start data_end

/-- Function `split_CalcUpperBoundOfOutputTransfer`: determine the upper bound of the
data chunk that will be transferred from the double-buffer to the output
file, or fail fatally when no element bound exists in a full buffer with
input still unread. -/
def split_CalcUpperBoundOfOutputTransfer (buff : List Char)
    (buff_size data_start data_end projected_max : Int)
    (is_first_block is_end_of_input is_last_piece : Bool) :
    Except SplitError Int :=
  let active_data_size := data_end - data_start + 1
  if projected_max > active_data_size then
    if active_data_size ≥ buff_size then
      .ok (data_start + buff_size - 1)
    else
      .ok data_end
  else if is_last_piece then
    .ok data_end
  else
    let bound := split_FindBound (bufSlice buff data_start data_end)
        (projected_max - 1) (data_end - data_start + 1) is_first_block
    if bound ≠ SPLIT_BOUND_NOT_FOUND then
      .ok (bound + data_start)
    else if is_end_of_input then
      .ok data_end
    else
      .error .noBoundFound

/-- The state of `split_SplitSource`'s streaming loop.  The first seven fields
are the C local variables (`pos` is the input file offset implicit in the C
file descriptor); `pieces` are the finalized output files, `cur` the contents
of the piece currently open.  The last three fields are ghost instrumentation
recording target sizes and debug-assertion outcomes; they never influence
control flow or data. -/
structure SplitSt where
  double_buff : List Char
  data_start : Int
  data_end : Int
  bytes_available : Int
  bytes_not_read : Int
  pos : Nat
  pieces : List (List Char)
  cur : List Char
  /-- ghost: the `to_read` target computed at the start of each piece. -/
  targets : List Int
  /-- ghost: whether `SPLIT_ASSERT( active_data_size < 2 * buff_size)` held at
  every evaluation of `split_CalcUpperBoundOfOutputTransfer` so far. -/
  activeOK : Bool
  /-- ghost: whether `SPLIT_ASSERT( projected_max == active_data_size)` (in the
  last-piece branch of `split_CalcUpperBoundOfOutputTransfer`) held at every
  evaluation so far. -/
  lastProjOK : Bool


/-- The refill step at the top of the transfer loop: when the upper half of
the double-buffer is fully drained (`data_end == buff_size - 1`), read the
next chunk from the input and extend the active window. -/
def refillIfNeeded (input : List Char) (buff_size : Int) (st : SplitSt) : SplitSt :=
  if st.data_end = buff_size - 1 then
    let fill := split_FillUpperBuffHalfFromInput input st.pos st.double_buff
        buff_size st.bytes_not_read
    { st with
      double_buff := fill.1
      data_end := st.data_end + fill.2
      pos := st.pos + fill.2.toNat
      bytes_not_read := st.bytes_not_read - fill.2 }
  else st

/-- The tail of one transfer-loop iteration, after the output bound `e` has
been computed: append `[data_start, e]` to the current piece, advance
`data_start`, compact the residual active data to the tail of the lower half
when the window has moved past the buffer midpoint, and reinitialize the
bounds when the buffer has been fully drained. -/
def afterWrite (buff_size e : Int) (st : SplitSt) : SplitSt :=
  let st1 := { st with
    cur := split_WriteOutput st.cur st.double_buff st.data_start e
    bytes_available := st.bytes_available - (e - st.data_start + 1)
    data_start := e + 1 }
  let st2 : SplitSt :=
    if e + 1 ≥ buff_size ∧ st.data_end - (e + 1) ≥ 0 then
      let a := st.data_end - (e + 1) + 1
      { st1 with
        double_buff := bufWrite st.double_buff (buff_size - a).toNat
            (bufSlice st.double_buff (e + 1) st.data_end)
        data_start := buff_size - a
        data_end := buff_size - 1 }
    else st1
  if st2.data_start > st2.data_end then
    { st2 with data_start := buff_size, data_end := buff_size - 1 }
  else st2

/-- One iteration of the `while ( to_read )` loop of `split_SplitSource`:
refill if needed, compute the transfer bound, update `to_read`, write the
chunk and slide the window.  Returns the new state, the new `to_read`, and
the fatal error if the bound computation aborted the run. -/
def pieceStep (input : List Char) (buff_size num_pieces piece_num to_read : Int)
    (is_first_block : Bool) (st : SplitSt) : SplitSt × Int × Option SplitError :=
  let st1 := refillIfNeeded input buff_size st
  let is_last_piece : Bool := piece_num = num_pieces - 1
  let active := st1.data_end - st1.data_start + 1
  let st1g := { st1 with
    activeOK := st1.activeOK && decide (active < 2 * buff_size)
    lastProjOK := st1.lastProjOK &&
      decide (is_last_piece = true → to_read ≤ active → to_read = active) }
  match split_CalcUpperBoundOfOutputTransfer st1.double_buff buff_size
      st1.data_start st1.data_end to_read is_first_block
      (st1.bytes_not_read = 0) is_last_piece with
  | .error err => (st1g, 0, some err)
  | .ok output_chunk_end =>
    let to_read' :=
      if output_chunk_end < st1.data_start then 0
      else if output_chunk_end - st1.data_start + 1 > to_read then 0
      else to_read - (output_chunk_end - st1.data_start + 1)
    (afterWrite buff_size output_chunk_end st1g, to_read', none)

/-- The `while ( to_read )` loop of `split_SplitSource` for one piece.
`fuel` bounds the number of iterations; every reachable call supplies more
fuel than `to_read`, which strictly decreases per iteration, so the
fuel-exhaustion branch is never taken at those calls.  (`to_read` never goes
negative on any path — an iteration subtracts at most the remaining budget —
so exiting at `to_read ≤ 0` is the same as the C guard `while ( to_read )`.) -/
def pieceLoop (input : List Char) (buff_size num_pieces piece_num : Int) :
    Nat → Int → Bool → SplitSt → SplitSt × Option SplitError
  | 0, _, _, st => (st, none)
  | fuel + 1, to_read, is_first_block, st =>
    if to_read ≤ 0 then (st, none)
    else
      let r := pieceStep input buff_size num_pieces piece_num to_read
          is_first_block st
      match r.2.2 with
      | some err => (r.1, some err)
      | none => pieceLoop input buff_size num_pieces piece_num fuel r.2.1 false r.1

/-- Target `to_read = ceil(bytes_available / n)`: the target size of the next piece,
as computed at the top of the per-piece loop of `split_SplitSource`
(integer division plus one when the remainder is nonzero). -/
def pieceTarget (bytes_available n : Int) : Int :=
  bytes_available / n + (if bytes_available % n = 0 then 0 else 1)

/-- The `for ( piece_num ... )` loop of `split_SplitSource`: compute the
piece target, fail when it is zero, run the transfer loop for the piece and
finalize it.  `fuel` bounds the number of pieces; `split_SplitSource` supplies
`num_pieces.toNat`, which is exact. -/
def splitPieces (input : List Char) (buff_size num_pieces : Int) :
    Nat → Int → SplitSt → SplitSt × Option SplitError
  | 0, _, st => (st, none)
  | fuel + 1, piece_num, st =>
    if num_pieces ≤ piece_num then (st, none)
    else
      let to_read := pieceTarget st.bytes_available (num_pieces - piece_num)
      if to_read = 0 then
        (st, some (.cantProduceRequestedPieces piece_num))
      else
        let r := pieceLoop input buff_size num_pieces piece_num
            (to_read.toNat + 1) to_read true
            { st with cur := [], targets := st.targets ++ [to_read] }
        match r.2 with
        | some err => (r.1, some err)
        | none =>
          splitPieces input buff_size num_pieces fuel (piece_num + 1)
            { r.1 with pieces := r.1.pieces ++ [r.1.cur], cur := [] }

/-- The initial engine state of `split_SplitSource`: empty active window at
the canonical position (`data_start = buff_size`, `data_end = buff_size - 1`),
full input unread.  The freshly `malloc`ed buffer contents are arbitrary. -/
def split_InitState (input : List Char) (buff_size : Int) : SplitSt where
  double_buff := List.replicate (2 * buff_size).toNat '\x00'
  data_start := buff_size
  data_end := buff_size - 1
  bytes_available := input.length
  bytes_not_read := input.length
  pos := 0
  pieces := []
  cur := []
  targets := []
  activeOK := true
  lastProjOK := true

/-- Function `split_SplitSource`: split the input byte stream into `num_pieces` output
pieces using a double-buffer of `2 * buff_size` bytes.  Returns the final
engine state (whose `pieces` field holds the output files) together with
`none` on success or `some e` when the run aborted with the fatal error `e`. -/
def split_SplitSource (input : List Char) (num_pieces buff_size : Int) :
    SplitSt × Option SplitError :=
  splitPieces input buff_size num_pieces num_pieces.toNat 0
    (split_InitState input buff_size)

/-! ## Verification-support definitions -/

/-- The bytes of the run not yet assigned to a finished or open piece:
the active window of the double-buffer followed by the unread remainder of
the input file. -/
def restOf (input : List Char) (st : SplitSt) : List Char :=
  bufSlice st.double_buff st.data_start st.data_end ++ input.drop st.pos

/-- The engine-state invariant of `split_SplitSource`, holding at every
iteration boundary of its loops: buffer bounds, the relation between the
active window, `bytes_available`, `bytes_not_read` and the input cursor. -/
structure SplitInv (input : List Char) (B : Int) (st : SplitSt) : Prop where
  hB : 1 ≤ B
  len : st.double_buff.length = (2 * B).toNat
  ds0 : 0 ≤ st.data_start
  dsB : st.data_start ≤ B
  deLo : B - 1 ≤ st.data_end
  deHi : st.data_end ≤ 2 * B - 1
  dsde : st.data_start ≤ st.data_end + 1
  avail : st.bytes_available
      = (st.data_end - st.data_start + 1) + st.bytes_not_read
  nr : st.bytes_not_read = (input.length : Int) - st.pos
  posLe : st.pos ≤ input.length

/-- The 12-byte input `">a\nAC\n>b\nGT\n"` of the spec's scenarios A and B. -/
def scenarioInput : List Char :=
  ['>', 'a', '\n', 'A', 'C', '\n', '>', 'b', '\n', 'G', 'T', '\n']

/-- A 16-byte input on which (with `num_pieces = 3`, chunk size 4) the active
data grows to exactly `2 * buff_size` bytes at a bound-decision call, and the
per-piece targets come out as `[6, 6, 8]`. -/
def oversizeActiveInput : List Char :=
  ['A', 'B', 'C', 'D', 'E', '>', 'x', 'y', '>', 'z', 'w', 'q', 'L', 'M', 'N', 'O']

/-- Holds (as `true`) iff the list is non-increasing (each element at most the
previous). -/
def nonIncreasingB : List Int → Bool
  | a :: b :: rest => decide (b ≤ a) && nonIncreasingB (b :: rest)
  | _ => true

/-- The sequence of per-piece target budgets of a run is monotonically
non-increasing (the property asserted by claim C5). -/
def targetsNonIncreasing (input : List Char) (num_pieces buff_size : Int) : Prop :=
  nonIncreasingB (split_SplitSource input num_pieces buff_size).1.targets = true


/-! ## Properties of the boundary locator -/

set_option maxHeartbeats 2000000 in
/-- Range invariant of the search loop: whatever the loop returns is either
`SPLIT_BOUND_NOT_FOUND` or an offset in `[-1, size - 1]`, and a `-1` offset is
impossible when `is_first_block` is set. -/
theorem split_FindBoundGo_range (buff : List Char) (pb size : Int) (fb : Bool)
    (hpb : 0 ≤ pb) (hps : pb < size) :
    ∀ (fuel : Nat) (i nnl : Int), 0 ≤ i →
      ((split_FindBoundGo buff pb size fb fuel i nnl).1 = SPLIT_BOUND_NOT_FOUND ∨
        (-1 ≤ (split_FindBoundGo buff pb size fb fuel i nnl).1 ∧
         (split_FindBoundGo buff pb size fb fuel i nnl).1 ≤ size - 1)) ∧
      (fb = true → (split_FindBoundGo buff pb size fb fuel i nnl).1 ≠ -1) := by
  intro fuel
  induction fuel with
  | zero =>
    intro i nnl hi
    exact ⟨Or.inl rfl, fun _ h => absurd h (show ¬ ((-12345 : Int) = -1) by decide)⟩
  | succ fuel ih =>
    intro i nnl hi
    simp only [split_FindBoundGo]
    split_ifs <;>
      first
        | exact ih (i + 1) _ (by omega)
        | (refine ⟨Or.inr ⟨?_, ?_⟩, fun hfb => ?_⟩ <;> simp_all <;> omega)

/-- Range invariant of `split_FindBound`, together with the first-block
constraint. -/
theorem split_FindBound_range (buff : List Char) (pb size : Int) (fb : Bool)
    (hpb : 0 ≤ pb) (hps : pb < size) :
    (split_FindBound buff pb size fb = SPLIT_BOUND_NOT_FOUND ∨
      (-1 ≤ split_FindBound buff pb size fb ∧
       split_FindBound buff pb size fb ≤ size - 1)) ∧
    (fb = true → split_FindBound buff pb size fb ≠ -1) :=
  split_FindBoundGo_range buff pb size fb hpb hps _ 0 0 le_rfl

/-- Left-first tie-break of the search loop: if an iteration at radius
`i > 0` sees the marker byte at both of its in-range candidates and the
first-block suppression does not apply to the left candidate, the iteration
returns the left boundary `pb - i - 1` (the right candidate is not reached). -/
theorem split_FindBoundGo_left_first (buff : List Char) (pb size : Int)
    (fb : Bool) (nnl : Int) (fuel : Nat) (i : Int)
    (hi0 : 0 < i) (hil : i < pb + 1) (hiu : i < size - pb)
    (hl : charAt buff (pb - i) = '>')
    (hr : charAt buff (pb + i) = '>')
    (hsup : i < pb ∨ fb = false) :
    (split_FindBoundGo buff pb size fb (fuel + 1) i nnl).1 = pb - i - 1 := by
  simp only [split_FindBoundGo]
  rw [if_neg (by omega : ¬ (pb + 1 ≤ i)), if_pos]
  refine ⟨hl, ?_⟩
  rcases hsup with h | h
  · exact Or.inl (by omega)
  · exact Or.inr h

/-! ## Buffer arithmetic lemmas -/

theorem bufWrite_length (buf src : List Char) (p : Nat)
    (h : p + src.length ≤ buf.length) :
    (bufWrite buf p src).length = buf.length := by
  simp [bufWrite]
  omega

theorem bufSlice_nil (buf : List Char) (a b : Int) (h : b < a) :
    bufSlice buf a b = [] := by
  have : (b - a + 1).toNat = 0 := by omega
  simp [bufSlice, this]

theorem bufSlice_length (buf : List Char) (a b : Int) (ha : 0 ≤ a)
    (hb : b < buf.length) :
    (bufSlice buf a b).length = (b - a + 1).toNat := by
  simp [bufSlice, List.length_take, List.length_drop]
  omega

theorem bufSlice_append_bufSlice (buf : List Char) (a e b : Int) (ha : 0 ≤ a)
    (hae : a - 1 ≤ e) (heb : e ≤ b) :
    bufSlice buf a e ++ bufSlice buf (e + 1) b = bufSlice buf a b := by
  simp only [bufSlice]
  have h1 : (e + 1).toNat = a.toNat + (e - a + 1).toNat := by omega
  have h2 : (b - a + 1).toNat = (e - a + 1).toNat + (b - (e + 1) + 1).toNat := by
    omega
  rw [h1, ← List.drop_drop, h2, List.take_add]

theorem bufWrite_extend (buf src : List Char) (B ds : Int)
    (hds0 : 0 ≤ ds) (hdsB : ds ≤ B)
    (hlen : B.toNat + src.length ≤ buf.length) :
    bufSlice (bufWrite buf B.toNat src) ds (B - 1 + src.length) =
      bufSlice buf ds (B - 1) ++ src := by
  have hXlen : (buf.take B.toNat).length = B.toNat := by
    simp [List.length_take]
    omega
  simp only [bufWrite, bufSlice, List.append_assoc]
  rw [List.drop_append_of_le_length (by rw [hXlen]; omega)]
  have hYlen : ((buf.take B.toNat).drop ds.toNat).length = B.toNat - ds.toNat := by
    simp [List.length_drop, hXlen]
  have hsplit : (B - 1 + ↑src.length - ds + 1).toNat
      = (B.toNat - ds.toNat) + src.length := by omega
  rw [hsplit, List.take_add, ← hYlen, List.take_left, List.drop_left]
  have : (B - 1 - ds + 1).toNat = B.toNat - ds.toNat := by omega
  rw [this, List.drop_take, List.take_left']
  rfl

theorem bufWrite_slice_self (buf src : List Char) (p : Int) (hp : 0 ≤ p)
    (hlen : p.toNat + src.length ≤ buf.length) :
    bufSlice (bufWrite buf p.toNat src) p (p + src.length - 1) = src := by
  have hXlen : (buf.take p.toNat).length = p.toNat := by
    simp [List.length_take]
    omega
  have hnil : List.drop p.toNat (List.take p.toNat buf) = [] := by
    simp [List.drop_take]
  simp only [bufWrite, bufSlice, List.append_assoc]
  rw [List.drop_append_of_le_length (by omega), hnil, List.nil_append]
  have : (p + ↑src.length - 1 - p + 1).toNat = src.length := by omega
  rw [this, List.take_left']
  rfl

/-! ## Properties of the bound-decision layer -/

/-- Any successful result of `split_CalcUpperBoundOfOutputTransfer` lies in
`[data_start - 1, data_end]`. -/
theorem calcUpperBound_range (buff : List Char)
    (buff_size data_start data_end projected_max : Int)
    (is_first_block is_end_of_input is_last_piece : Bool) (e : Int)
    (hB : 1 ≤ buff_size) (hde : data_start ≤ data_end + 1)
    (hpm : 0 < projected_max)
    (h : split_CalcUpperBoundOfOutputTransfer buff buff_size data_start
        data_end projected_max is_first_block is_end_of_input is_last_piece
        = .ok e) :
    data_start - 1 ≤ e ∧ e ≤ data_end := by
  simp only [split_CalcUpperBoundOfOutputTransfer] at h
  by_cases h1 : projected_max > data_end - data_start + 1
  · rw [if_pos h1] at h
    by_cases h2 : data_end - data_start + 1 ≥ buff_size
    · rw [if_pos h2] at h
      injection h with h
      omega
    · rw [if_neg h2] at h
      injection h with h
      omega
  · rw [if_neg h1] at h
    by_cases h2 : is_last_piece = true
    · rw [if_pos h2] at h
      injection h with h
      omega
    · rw [if_neg h2] at h
      by_cases h3 : split_FindBound (bufSlice buff data_start data_end)
          (projected_max - 1) (data_end - data_start + 1) is_first_block
          ≠ SPLIT_BOUND_NOT_FOUND
      · rw [if_pos h3] at h
        have hrange := (split_FindBound_range (bufSlice buff data_start data_end)
          (projected_max - 1) (data_end - data_start + 1) is_first_block
          (by omega) (by omega)).1
        rcases hrange with hnf | ⟨hlo, hhi⟩
        · exact absurd hnf h3
        · injection h with h
          omega
      · rw [if_neg h3] at h
        by_cases h4 : is_end_of_input = true
        · rw [if_pos h4] at h
          injection h with h
          omega
        · rw [if_neg h4] at h
          exact absurd h (by simp)

/-- With `is_last_piece` set, `split_CalcUpperBoundOfOutputTransfer` never
fails. -/
theorem calcUpperBound_last_ok (buff : List Char)
    (buff_size data_start data_end projected_max : Int)
    (is_first_block is_end_of_input : Bool) :
    ∃ e, split_CalcUpperBoundOfOutputTransfer buff buff_size data_start
        data_end projected_max is_first_block is_end_of_input true = .ok e := by
  simp only [split_CalcUpperBoundOfOutputTransfer]
  split_ifs <;> exact ⟨_, rfl⟩

theorem splitInv_init (input : List Char) (B : Int) (hB : 1 ≤ B) :
    SplitInv input B (split_InitState input B) := by
  refine ⟨hB, ?_, ?_, ?_, ?_, ?_, ?_, ?_, ?_, ?_⟩ <;>
    simp [split_InitState] <;> omega

theorem refill_spec (input : List Char) (B : Int) (st : SplitSt)
    (hInv : SplitInv input B st) :
    SplitInv input B (refillIfNeeded input B st) ∧
    (refillIfNeeded input B st).data_start = st.data_start ∧
    (refillIfNeeded input B st).bytes_available = st.bytes_available ∧
    (refillIfNeeded input B st).cur = st.cur ∧
    (refillIfNeeded input B st).pieces = st.pieces ∧
    (refillIfNeeded input B st).targets = st.targets ∧
    (refillIfNeeded input B st).activeOK = st.activeOK ∧
    (refillIfNeeded input B st).lastProjOK = st.lastProjOK ∧
    restOf input (refillIfNeeded input B st) = restOf input st ∧
    ((refillIfNeeded input B st).data_end - (refillIfNeeded input B st).data_start + 1 = 0 →
      (refillIfNeeded input B st).bytes_not_read = 0) := by
  obtain ⟨buf, ds, de, av, nrv, pos, ps, cur, tg, aok, lok⟩ := st
  obtain ⟨hB, len, ds0, dsB, deLo, deHi, dsde, avail, nr, posLe⟩ := hInv
  simp only at hB len ds0 dsB deLo deHi dsde avail nr posLe
  by_cases hre : de = B - 1
  · subst hre
    by_cases hnr : nrv = 0
    · subst hnr
      have hid : refillIfNeeded input B
          ⟨buf, ds, B - 1, av, 0, pos, ps, cur, tg, aok, lok⟩ =
          ⟨buf, ds, B - 1, av, 0, pos, ps, cur, tg, aok, lok⟩ := by
        simp [refillIfNeeded, split_FillUpperBuffHalfFromInput]
      rw [hid]
      exact ⟨⟨hB, len, ds0, dsB, deLo, deHi, dsde, avail, nr, posLe⟩,
        rfl, rfl, rfl, rfl, rfl, rfl, rfl, rfl, fun h0 => rfl⟩
    · have hnr0 : 0 < nrv := by omega
      set io := if B > nrv then nrv else B with hio
      have hio1 : 1 ≤ io := by rw [hio]; split_ifs <;> omega
      have hioB : io ≤ B := by rw [hio]; split_ifs <;> omega
      have hion : io ≤ nrv := by rw [hio]; split_ifs <;> omega
      set src := (input.drop pos).take io.toNat with hsrc
      have hsrclen : src.length = io.toNat := by
        simp [hsrc, List.length_take, List.length_drop]
        omega
      have hlen2 : B.toNat + src.length ≤ buf.length := by
        rw [hsrclen, len]; omega
      have hst1 : refillIfNeeded input B
          ⟨buf, ds, B - 1, av, nrv, pos, ps, cur, tg, aok, lok⟩ =
          ⟨bufWrite buf B.toNat src, ds, B - 1 + io, av, nrv - io,
            pos + io.toNat, ps, cur, tg, aok, lok⟩ := by
        simp only [refillIfNeeded, split_FillUpperBuffHalfFromInput,
          if_neg hnr, ← hio, ← hsrc, ite_true, eq_self_iff_true]
      rw [hst1]
      refine ⟨⟨hB, ?_, ds0, dsB, by simp only []; omega, by simp only []; omega,
          by simp only []; omega, by simp only []; omega, ?_, ?_⟩,
        rfl, rfl, rfl, rfl, rfl, rfl, rfl, ?_, ?_⟩
      · simpa [bufWrite_length buf src B.toNat hlen2] using len
      · simp only []
        push_cast
        omega
      · simp only []
        omega
      · -- restOf is preserved by a refill
        simp only [restOf]
        have hcast : B - 1 + io = B - 1 + (src.length : Int) := by
          rw [hsrclen]; omega
        rw [hcast, bufWrite_extend buf src B ds ds0 dsB hlen2,
          List.append_assoc]
        congr 1
        have hdd : List.drop (pos + io.toNat) input
            = List.drop io.toNat (List.drop pos input) := by
          rw [List.drop_drop]
        rw [hdd, hsrc, List.take_append_drop]
      · simp only []
        intro h0
        omega
  · have hid : refillIfNeeded input B
        ⟨buf, ds, de, av, nrv, pos, ps, cur, tg, aok, lok⟩ =
        ⟨buf, ds, de, av, nrv, pos, ps, cur, tg, aok, lok⟩ := by
      simp [refillIfNeeded, hre]
    rw [hid]
    refine ⟨⟨hB, len, ds0, dsB, deLo, deHi, dsde, avail, nr, posLe⟩,
      rfl, rfl, rfl, rfl, rfl, rfl, rfl, rfl, ?_⟩
    intro h0
    dsimp only at h0 ⊢
    omega

theorem afterWrite_spec (input : List Char) (B : Int) (st : SplitSt) (e : Int)
    (hInv : SplitInv input B st)
    (he1 : st.data_start - 1 ≤ e) (he2 : e ≤ st.data_end) :
    SplitInv input B (afterWrite B e st) ∧
    (afterWrite B e st).cur
      = st.cur ++ bufSlice st.double_buff st.data_start e ∧
    (afterWrite B e st).cur ++ restOf input (afterWrite B e st)
      = st.cur ++ restOf input st ∧
    (afterWrite B e st).bytes_available
      = st.bytes_available - (e - st.data_start + 1) ∧
    (afterWrite B e st).bytes_not_read = st.bytes_not_read ∧
    (afterWrite B e st).pieces = st.pieces ∧
    (afterWrite B e st).targets = st.targets ∧
    (afterWrite B e st).activeOK = st.activeOK ∧
    (afterWrite B e st).lastProjOK = st.lastProjOK := by
  obtain ⟨buf, ds, de, av, nrv, pos, ps, cur, tg, aok, lok⟩ := st
  obtain ⟨hB, len, ds0, dsB, deLo, deHi, dsde, avail, nr, posLe⟩ := hInv
  simp only at hB len ds0 dsB deLo deHi dsde avail nr posLe he1 he2
  by_cases hcomp : e + 1 ≥ B ∧ de - (e + 1) ≥ 0
  · -- compaction: residual data moves to the tail of the lower half
    have ha1 : 1 ≤ de - e := by omega
    have haB : de - e ≤ B := by omega
    set a : Int := de - (e + 1) + 1 with hadef
    have ha : a = de - e := by omega
    set src := bufSlice buf (e + 1) de with hsrc
    have hsrclen : src.length = a.toNat := by
      rw [hsrc, bufSlice_length buf (e + 1) de (by omega) (by omega), hadef]
    have hlen2 : (B - a).toNat + src.length ≤ buf.length := by
      rw [hsrclen, len]; omega
    have hres : afterWrite B e ⟨buf, ds, de, av, nrv, pos, ps, cur, tg, aok, lok⟩
        = ⟨bufWrite buf (B - a).toNat src, B - a, B - 1,
            av - (e - ds + 1), nrv, pos,
            ps, cur ++ bufSlice buf ds e, tg, aok, lok⟩ := by
      simp only [afterWrite, split_WriteOutput, if_pos hcomp, ← hadef, ← hsrc]
      rw [if_neg (by (try dsimp only); omega)]
    rw [hres]
    refine ⟨⟨hB, ?_, by (try dsimp only); omega, by (try dsimp only); omega,
        by (try dsimp only); omega, by (try dsimp only); omega, by (try dsimp only); omega,
        by (try dsimp only); omega, by (try dsimp only); omega, by (try dsimp only); omega⟩,
      rfl, ?_, rfl, rfl, rfl, rfl, rfl, rfl⟩
    · dsimp only
      rw [bufWrite_length buf src (B - a).toNat hlen2]
      exact len
    · -- written piece plus remaining data is conserved
      dsimp only [restOf]
      have hslice : bufSlice (bufWrite buf (B - a).toNat src) (B - a) (B - 1)
          = src := by
        have := bufWrite_slice_self buf src (B - a) (by omega) hlen2
        have hco : B - a + (src.length : Int) - 1 = B - 1 := by
          rw [hsrclen]; omega
        rwa [hco] at this
      rw [hslice, hsrc, ← List.append_assoc, List.append_assoc cur,
        bufSlice_append_bufSlice buf ds e de ds0 he1 (by omega),
        List.append_assoc]
  · -- no compaction
    by_cases hreset : e + 1 > de
    · -- the buffer is drained: reinitialize the bounds of active data
      have hede : e = de := by omega
      have hres : afterWrite B e ⟨buf, ds, de, av, nrv, pos, ps, cur, tg, aok, lok⟩
          = ⟨buf, B, B - 1, av - (e - ds + 1), nrv, pos,
              ps, cur ++ bufSlice buf ds e, tg, aok, lok⟩ := by
        simp only [afterWrite, split_WriteOutput, if_neg hcomp]
        rw [if_pos (by (try dsimp only); omega)]
      rw [hres]
      refine ⟨⟨hB, len, by (try dsimp only); omega, by (try dsimp only); omega, by (try dsimp only); omega,
          by (try dsimp only); omega, by (try dsimp only); omega, by (try dsimp only); omega,
          nr, posLe⟩,
        rfl, ?_, rfl, rfl, rfl, rfl, rfl, rfl⟩
      dsimp only [restOf]
      rw [bufSlice_nil buf B (B - 1) (by omega), List.nil_append, hede,
        List.append_assoc]
    · -- the window simply advances
      have hres : afterWrite B e ⟨buf, ds, de, av, nrv, pos, ps, cur, tg, aok, lok⟩
          = ⟨buf, e + 1, de, av - (e - ds + 1), nrv, pos,
              ps, cur ++ bufSlice buf ds e, tg, aok, lok⟩ := by
        simp only [afterWrite, split_WriteOutput, if_neg hcomp]
        rw [if_neg (by (try dsimp only); omega)]
      rw [hres]
      refine ⟨⟨hB, len, by (try dsimp only); omega, by (try dsimp only); omega,
          by (try dsimp only); omega, by (try dsimp only); omega, by (try dsimp only); omega,
          by (try dsimp only); omega, nr, posLe⟩,
        rfl, ?_, rfl, rfl, rfl, rfl, rfl, rfl⟩
      dsimp only [restOf]
      rw [← List.append_assoc, List.append_assoc cur,
        bufSlice_append_bufSlice buf ds e de ds0 he1 (by omega),
        List.append_assoc]

theorem calcUpperBound_last_ge (buff : List Char)
    (buff_size data_start data_end projected_max : Int)
    (is_first_block is_end_of_input : Bool) (e : Int)
    (hB : 1 ≤ buff_size) (hactive : data_start ≤ data_end)
    (h : split_CalcUpperBoundOfOutputTransfer buff buff_size data_start
        data_end projected_max is_first_block is_end_of_input true = .ok e) :
    data_start ≤ e := by
  simp only [split_CalcUpperBoundOfOutputTransfer] at h
  by_cases h1 : projected_max > data_end - data_start + 1
  · rw [if_pos h1] at h
    by_cases h2 : data_end - data_start + 1 ≥ buff_size
    · rw [if_pos h2] at h
      injection h with h
      omega
    · rw [if_neg h2] at h
      injection h with h
      omega
  · rw [if_neg h1] at h
    simp only [if_true] at h
    injection h with h
    omega

theorem pieceStep_spec (input : List Char) (B P k tr : Int) (fb : Bool)
    (st : SplitSt) (hInv : SplitInv input B st) (htr : 0 < tr) :
    ∀ st' tr' err, pieceStep input B P k tr fb st = (st', tr', err) →
      SplitInv input B st' ∧
      st'.pieces = st.pieces ∧
      st'.targets = st.targets ∧
      st'.cur ++ restOf input st' = st.cur ++ restOf input st ∧
      0 ≤ tr' ∧ tr' < tr ∧
      ((k = P - 1 → tr = st.bytes_available) → st'.lastProjOK = st.lastProjOK) ∧
      (k = P - 1 → tr = st.bytes_available →
        (err = none ∧ tr' = st'.bytes_available)) := by
  intro st' tr' err heq
  obtain ⟨hInv1, hds, hav, hcur, hps, htg, haok, hlok, hrest, hempty⟩ :=
    refill_spec input B st hInv
  set st1 := refillIfNeeded input B st with hst1
  have hnn1 : 0 ≤ st1.bytes_not_read := by
    rw [hInv1.nr]
    have := hInv1.posLe
    omega
  -- the last-piece ghost check at this call holds whenever the
  -- `to_read = bytes_available` synchronization holds for the last piece
  have hghost : (k = P - 1 → tr = st.bytes_available) →
      decide ((decide (k = P - 1) = true) →
        tr ≤ st1.data_end - st1.data_start + 1 →
        tr = st1.data_end - st1.data_start + 1) = true := by
    intro hsync
    rw [decide_eq_true_eq]
    intro hkp hle
    have hk : k = P - 1 := of_decide_eq_true hkp
    have h1 : tr = st1.bytes_available := by rw [hav]; exact hsync hk
    have h2 := hInv1.avail
    omega
  simp only [pieceStep] at heq
  rw [← hst1] at heq
  split at heq
  · -- the bound computation aborted the run
    rename_i err2 hC
    injection heq with heq1 heq2
    injection heq2 with heq2 heq3
    subst heq1 heq2 heq3
    refine ⟨⟨hInv1.hB, hInv1.len, hInv1.ds0, hInv1.dsB, hInv1.deLo,
        hInv1.deHi, hInv1.dsde, hInv1.avail, hInv1.nr, hInv1.posLe⟩,
      hps, htg, ?_, le_rfl, htr, ?_, ?_⟩
    · show st1.cur ++ restOf input st1 = st.cur ++ restOf input st
      rw [hcur, hrest]
    · intro hsync
      show (st1.lastProjOK && decide ((decide (k = P - 1) = true) →
        tr ≤ st1.data_end - st1.data_start + 1 →
        tr = st1.data_end - st1.data_start + 1)) = st.lastProjOK
      rw [hghost hsync, Bool.and_true, hlok]
    · intro hk hsync
      exfalso
      obtain ⟨e0, he0⟩ := calcUpperBound_last_ok st1.double_buff B
        st1.data_start st1.data_end tr fb (decide (st1.bytes_not_read = 0))
      rw [show (decide (k = P - 1)) = true from decide_eq_true hk, he0] at hC
      exact absurd hC (by simp)
  · -- a bound was found
    rename_i e hC
    injection heq with heq1 heq2
    injection heq2 with heq2 heq3
    subst heq1 heq2 heq3
    have hr := calcUpperBound_range st1.double_buff B st1.data_start
      st1.data_end tr fb (decide (st1.bytes_not_read = 0))
      (decide (k = P - 1)) e hInv1.hB hInv1.dsde htr hC
    have hInvG : SplitInv input B { st1 with
        activeOK := st1.activeOK &&
          decide (st1.data_end - st1.data_start + 1 < 2 * B)
        lastProjOK := st1.lastProjOK &&
          decide ((decide (k = P - 1) = true) →
            tr ≤ st1.data_end - st1.data_start + 1 →
            tr = st1.data_end - st1.data_start + 1) } :=
      ⟨hInv1.hB, hInv1.len, hInv1.ds0, hInv1.dsB, hInv1.deLo,
        hInv1.deHi, hInv1.dsde, hInv1.avail, hInv1.nr, hInv1.posLe⟩
    obtain ⟨hAInv, hAcur, hAcontent, hAavail, hAnr, hAps, hAtg, hAaok, hAlok⟩ :=
      afterWrite_spec input B _ e hInvG hr.1 hr.2
    refine ⟨hAInv, ?_, ?_, ?_, ?_, ?_, ?_, ?_⟩
    · exact hAps.trans hps
    · exact hAtg.trans htg
    · refine hAcontent.trans ?_
      show st1.cur ++ restOf input st1 = st.cur ++ restOf input st
      rw [hcur, hrest]
    · split_ifs <;> omega
    · split_ifs <;> omega
    · intro hsync
      refine hAlok.trans ?_
      show (st1.lastProjOK && decide ((decide (k = P - 1) = true) →
        tr ≤ st1.data_end - st1.data_start + 1 →
        tr = st1.data_end - st1.data_start + 1)) = st.lastProjOK
      rw [hghost hsync, Bool.and_true, hlok]
    · intro hk hsync
      refine ⟨rfl, ?_⟩
      have htravail : tr = st1.bytes_available := by rw [hav]; exact hsync
      have hactive1 : st1.data_start ≤ st1.data_end := by
        by_contra hc
        have h0 : st1.data_end - st1.data_start + 1 = 0 := by
          have := hInv1.dsde
          omega
        have := hempty h0
        have := hInv1.avail
        omega
      have hge : st1.data_start ≤ e := by
        refine calcUpperBound_last_ge st1.double_buff B st1.data_start
          st1.data_end tr fb (decide (st1.bytes_not_read = 0)) e
          hInv1.hB hactive1 ?_
        rwa [show (decide (k = P - 1)) = true from decide_eq_true hk] at hC
      have hspan : e - st1.data_start + 1 ≤ tr := by
        have := hInv1.avail
        have := hr.2
        omega
      rw [hAavail]
      dsimp only
      split_ifs <;> omega

theorem pieceLoop_spec (input : List Char) (B P k : Int) :
    ∀ (fuel : Nat) (tr : Int) (fb : Bool) (st : SplitSt),
      SplitInv input B st → tr.toNat < fuel →
      ∀ st' err, pieceLoop input B P k fuel tr fb st = (st', err) →
        SplitInv input B st' ∧
        st'.pieces = st.pieces ∧
        st'.targets = st.targets ∧
        st'.cur ++ restOf input st' = st.cur ++ restOf input st ∧
        ((k = P - 1 → tr = st.bytes_available) →
          (st'.lastProjOK = st.lastProjOK ∧
           (k = P - 1 → err = none ∧ st'.bytes_available = 0))) := by
  intro fuel
  induction fuel with
  | zero =>
    intro tr fb st hInv hfuel
    omega
  | succ fuel ih =>
    intro tr fb st hInv hfuel st' err heq
    simp only [pieceLoop] at heq
    by_cases htr : tr ≤ 0
    · rw [if_pos htr] at heq
      injection heq with heq1 heq2
      subst heq1 heq2
      refine ⟨hInv, rfl, rfl, rfl, fun hsync => ⟨rfl, fun hk => ⟨rfl, ?_⟩⟩⟩
      have h1 := hsync hk
      have h2 := hInv.avail
      have h3 := hInv.dsde
      have h4 := hInv.nr
      have h5 := hInv.posLe
      omega
    · rw [if_neg htr] at heq
      rcases hstep : pieceStep input B P k tr fb st with ⟨stm, trm, errm⟩
      obtain ⟨hSInv, hSps, hStg, hScontent, hStr0, hStrlt, hSghost, hSlast⟩ :=
        pieceStep_spec input B P k tr fb st hInv (by omega) stm trm errm hstep
      rw [hstep] at heq
      rcases errm with _ | err2
      · -- the loop continues with the reduced target
        simp only at heq
        obtain ⟨hIInv, hIps, hItg, hIcontent, hIsync⟩ :=
          ih trm false stm hSInv (by omega) st' err heq
        refine ⟨hIInv, hIps.trans hSps, hItg.trans hStg,
          hIcontent.trans hScontent, fun hsync => ?_⟩
        have hsync' : k = P - 1 → trm = stm.bytes_available := by
          intro hk
          exact ((hSlast hk (hsync hk)).2)
        obtain ⟨hIl, hIe⟩ := hIsync hsync'
        exact ⟨hIl.trans (hSghost hsync), hIe⟩
      · -- the fatal error is propagated
        simp only at heq
        injection heq with heq1 heq2
        subst heq1 heq2
        refine ⟨hSInv, hSps, hStg, hScontent, fun hsync => ⟨hSghost hsync, ?_⟩⟩
        intro hk
        exact absurd (hSlast hk (hsync hk)).1 (by simp)

theorem pieceTarget_one (a : Int) : pieceTarget a 1 = a := by
  simp [pieceTarget]

theorem splitPieces_spec (input : List Char) (B P : Int) :
    ∀ (fuel : Nat) (k : Int) (st : SplitSt),
      SplitInv input B st → (P - k).toNat ≤ fuel →
      ∀ st' err, splitPieces input B P fuel k st = (st', err) →
        SplitInv input B st' ∧
        st'.lastProjOK = st.lastProjOK ∧
        (err = none →
          st'.pieces.flatten ++ restOf input st'
            = st.pieces.flatten ++ restOf input st ∧
          (k < P → st'.bytes_available = 0) ∧
          (P ≤ k → st' = st)) := by
  intro fuel
  induction fuel with
  | zero =>
    intro k st hInv hfuel st' err heq
    simp only [splitPieces] at heq
    injection heq with heq1 heq2
    subst heq1 heq2
    exact ⟨hInv, rfl, fun _ => ⟨rfl, fun hk => by omega, fun _ => rfl⟩⟩
  | succ fuel ih =>
    intro k st hInv hfuel st' err heq
    simp only [splitPieces] at heq
    by_cases hkP : P ≤ k
    · rw [if_pos hkP] at heq
      injection heq with heq1 heq2
      subst heq1 heq2
      exact ⟨hInv, rfl, fun _ => ⟨rfl, fun hk => by omega, fun _ => rfl⟩⟩
    · rw [if_neg hkP] at heq
      by_cases h0 : pieceTarget st.bytes_available (P - k) = 0
      · rw [if_pos h0] at heq
        injection heq with heq1 heq2
        subst heq1 heq2
        exact ⟨hInv, rfl, fun hnone => by simp at hnone⟩
      · rw [if_neg h0] at heq
        set tr := pieceTarget st.bytes_available (P - k) with htr
        have hInvIn : SplitInv input B
            { st with cur := [], targets := st.targets ++ [tr] } :=
          ⟨hInv.hB, hInv.len, hInv.ds0, hInv.dsB, hInv.deLo, hInv.deHi,
            hInv.dsde, hInv.avail, hInv.nr, hInv.posLe⟩
        rcases hloop : pieceLoop input B P k (tr.toNat + 1) tr true
            { st with cur := [], targets := st.targets ++ [tr] }
          with ⟨stm, errm⟩
        obtain ⟨LInv, Lps, Ltg, Lcontent, Lsync⟩ :=
          pieceLoop_spec input B P k (tr.toNat + 1) tr true _ hInvIn
            (by omega) stm errm hloop
        have hsyncIn : k = P - 1 → tr = st.bytes_available := by
          intro hk
          rw [htr, hk]
          have h1 : P - (P - 1) = 1 := by omega
          rw [h1, pieceTarget_one]
        obtain ⟨Llok, Llast⟩ := Lsync hsyncIn
        rw [hloop] at heq
        rcases errm with _ | err2
        · -- the piece completed; finalize it and continue
          simp only at heq
          have hInv2 : SplitInv input B
              { stm with pieces := stm.pieces ++ [stm.cur], cur := [] } :=
            ⟨LInv.hB, LInv.len, LInv.ds0, LInv.dsB, LInv.deLo, LInv.deHi,
              LInv.dsde, LInv.avail, LInv.nr, LInv.posLe⟩
          obtain ⟨IInv, Ilok, Irest⟩ :=
            ih (k + 1) _ hInv2 (by omega) st' err heq
          refine ⟨IInv, ?_, fun hnone => ?_⟩
          · exact Ilok.trans Llok
          · obtain ⟨Icontent, Iavail, Ieq⟩ := Irest hnone
            refine ⟨?_, fun _ => ?_, fun hPk => by omega⟩
            · rw [Icontent]
              show (stm.pieces ++ [stm.cur]).flatten ++ restOf input stm
                = st.pieces.flatten ++ restOf input st
              rw [List.flatten_append, Lps]
              show st.pieces.flatten ++ (stm.cur ++ []) ++ restOf input stm
                = st.pieces.flatten ++ restOf input st
              rw [List.append_nil, List.append_assoc, Lcontent]
              rfl
            · by_cases hk1 : k + 1 < P
              · exact Iavail hk1
              · have hkeq : k = P - 1 := by omega
                have := Ieq (by omega)
                rw [this]
                show stm.bytes_available = 0
                exact (Llast hkeq).2
        · -- the piece aborted the run
          simp only at heq
          injection heq with heq1 heq2
          subst heq1 heq2
          exact ⟨LInv, Llok, fun hnone => by simp at hnone⟩

/-- C1: for every input byte stream and number of pieces (with a positive
chunk size, as every configuration accepted by the tool provides, and at
least one piece), if the run completes successfully then concatenating the
output pieces in index order reproduces the original input byte stream
exactly — no byte is duplicated or dropped across refills, piece
transitions, and window compactions. -/
theorem record_integrity (input : List Char) (num_pieces buff_size : Int)
    (hB : 1 ≤ buff_size) (hP : 1 ≤ num_pieces)
    (hok : (split_SplitSource input num_pieces buff_size).2 = none) :
    (split_SplitSource input num_pieces buff_size).1.pieces.flatten = input := by
  rcases hres : split_SplitSource input num_pieces buff_size with ⟨st', err⟩
  rw [hres] at hok
  simp only at hok
  subst hok
  simp only
  have hres' : splitPieces input buff_size num_pieces num_pieces.toNat 0
      (split_InitState input buff_size) = (st', none) := hres
  obtain ⟨hInv', hlok', hrest'⟩ := splitPieces_spec input buff_size num_pieces
    num_pieces.toNat 0 (split_InitState input buff_size)
    (splitInv_init input buff_size hB) (by omega) st' none hres'
  obtain ⟨hcontent, havail, -⟩ := hrest' rfl
  have havail0 : st'.bytes_available = 0 := havail (by omega)
  have h1 := hInv'.avail
  have h2 := hInv'.nr
  have h3 := hInv'.posLe
  have h4 := hInv'.dsde
  have hactive0 : bufSlice st'.double_buff st'.data_start st'.data_end = [] := by
    apply bufSlice_nil
    omega
  have hpos0 : List.drop st'.pos input = [] := by
    apply List.drop_eq_nil_of_le
    omega
  have hrest0 : restOf input st' = [] := by
    rw [restOf, hactive0, hpos0, List.append_nil]
  rw [hrest0, List.append_nil] at hcontent
  rw [hcontent]
  show restOf input (split_InitState input buff_size) = input
  rw [restOf]
  simp only [split_InitState, List.drop_zero]
  rw [bufSlice_nil _ _ _ (by omega : buff_size - 1 < buff_size),
    List.nil_append]

/-- Witness for C1 at a concrete successful run (the scenario input split
into two pieces with chunk size 6). -/
theorem record_integrity_witness :
    1 ≤ (6 : Int) ∧ 1 ≤ (2 : Int) ∧
    (split_SplitSource scenarioInput 2 6).2 = none ∧
    (split_SplitSource scenarioInput 2 6).1.pieces.flatten = scenarioInput :=
  ⟨by decide, by decide, by decide,
    record_integrity scenarioInput 2 6 (by decide) (by decide) (by decide)⟩

/-- C2: for every window buffer, window size and projected bound with
`0 ≤ projectedBound < windowSize`, `split_FindBound` returns either
`SPLIT_BOUND_NOT_FOUND` or an offset in `[-1, windowSize - 1]`, and when
`is_first_block` is `true` the returned offset is never `-1`. -/
theorem findBound_output_range (buff : List Char) (pb size : Int) (fb : Bool)
    (h0 : 0 ≤ pb) (h1 : pb < size) :
    (split_FindBound buff pb size fb = SPLIT_BOUND_NOT_FOUND ∨
      (-1 ≤ split_FindBound buff pb size fb ∧
       split_FindBound buff pb size fb ≤ size - 1)) ∧
    (fb = true → split_FindBound buff pb size fb ≠ -1) :=
  split_FindBound_range buff pb size fb h0 h1

/-- Witness for C2 at the concrete window `">a"` with projected bound 0. -/
theorem findBound_output_range_witness :
    ((split_FindBound ['>', 'a'] 0 2 true = SPLIT_BOUND_NOT_FOUND ∨
      (-1 ≤ split_FindBound ['>', 'a'] 0 2 true ∧
       split_FindBound ['>', 'a'] 0 2 true ≤ 2 - 1)) ∧
     (true = true → split_FindBound ['>', 'a'] 0 2 true ≠ -1)) :=
  findBound_output_range ['>', 'a'] 0 2 true (by decide) (by decide)

/-- C3: splitting the 12-byte input `">a\nAC\n>b\nGT\n"` into 2 pieces
produces exactly `">a\nAC\n"` and `">b\nGT\n"`, both when the chunk size
(12) holds the whole file and when it is 5 bytes, forcing multiple refills —
the chunking does not change the output. -/
theorem scenario_chunk_independence :
    (split_SplitSource scenarioInput 2 12).2 = none ∧
    (split_SplitSource scenarioInput 2 12).1.pieces
      = [['>', 'a', '\n', 'A', 'C', '\n'], ['>', 'b', '\n', 'G', 'T', '\n']] ∧
    (split_SplitSource scenarioInput 2 5).2 = none ∧
    (split_SplitSource scenarioInput 2 5).1.pieces
      = (split_SplitSource scenarioInput 2 12).1.pieces := by
  decide

/-- C4 (evaluation at the failing input): on the 16-byte input
`"ABCDE>xy>zwqLMNO"` with `num_pieces = 3` and chunk size 4 the run
completes successfully, yet the ghost flag recording
`SPLIT_ASSERT( active_data_size < 2 * buff_size)` at every bound-decision
call is `false`: at one call the active data size reaches exactly
`2 * buff_size` (8), contradicting the claimed strict invariant. -/
theorem active_size_assert_fails :
    (split_SplitSource oversizeActiveInput 3 4).2 = none ∧
    (split_SplitSource oversizeActiveInput 3 4).1.activeOK = false := by
  decide

/-- C5 (counterexample): on `oversizeActiveInput` with `num_pieces = 3` and
chunk size 4, the per-piece targets are `[6, 6, 8]` — the last target
exceeds the previous one, refuting monotonic non-increase as stated. -/
theorem targets_monotone_counterexample :
    (split_SplitSource oversizeActiveInput 3 4).1.targets = [6, 6, 8] ∧
    ¬ targetsNonIncreasing oversizeActiveInput 3 4 := by
  constructor
  · decide
  · rw [targetsNonIncreasing]
    decide

theorem pieceTarget_mul_ge (a n : Int) (hn : 0 < n) :
    a ≤ n * pieceTarget a n := by
  have hdiv := Int.ediv_add_emod a n
  have hmod := Int.emod_nonneg a (by omega : n ≠ 0)
  have hmod2 := Int.emod_lt_of_pos a hn
  rw [pieceTarget]
  by_cases h : a % n = 0
  · rw [if_pos h]
    have hexp : n * (a / n + 0) = n * (a / n) := by ring
    omega
  · rw [if_neg h]
    have hexp : n * (a / n + 1) = n * (a / n) + n := by ring
    omega

theorem pieceTarget_le_of_le_mul (a n t : Int) (hn : 0 < n) (h : a ≤ n * t) :
    pieceTarget a n ≤ t := by
  have hdiv := Int.ediv_add_emod a n
  have hmod := Int.emod_nonneg a (by omega : n ≠ 0)
  have hmod2 := Int.emod_lt_of_pos a hn
  rw [pieceTarget]
  by_cases hr : a % n = 0
  · rw [if_pos hr]
    have h1 : n * (a / n) ≤ n * t := by omega
    have h2 := le_of_mul_le_mul_left h1 hn
    omega
  · rw [if_neg hr]
    have h1 : n * (a / n) < n * t := by omega
    have h2 := lt_of_mul_lt_mul_left h1 (by omega : (0:Int) ≤ n)
    omega

/-- C5 (amended): consecutive piece targets are non-increasing provided the
piece actually wrote at least its target budget: if `w` bytes were written
with `pieceTarget avail n ≤ w ≤ avail` and `n ≥ 2` pieces remained, then the
next target `pieceTarget (avail - w) (n - 1)` is at most the current one.
(When a piece closes early — e.g. a `-1` boundary — the next target can
increase, as the counterexample shows.) -/
theorem pieceTarget_nonincreasing_of_target_met (avail n w : Int)
    (hn : 2 ≤ n) (ha : 0 ≤ avail)
    (hw : pieceTarget avail n ≤ w) (hwa : w ≤ avail) :
    pieceTarget (avail - w) (n - 1) ≤ pieceTarget avail n := by
  have hkey := pieceTarget_mul_ge avail n (by omega)
  apply pieceTarget_le_of_le_mul _ _ _ (by omega : (0:Int) < n - 1)
  have hexp : (n - 1) * pieceTarget avail n
      = n * pieceTarget avail n - pieceTarget avail n := by ring
  omega

/-- Witness for the amended C5 at `avail = 10`, `n = 3`, `w = 4`. -/
theorem pieceTarget_nonincreasing_witness :
    pieceTarget (10 - 4) (3 - 1) ≤ pieceTarget 10 3 :=
  pieceTarget_nonincreasing_of_target_met 10 3 4 (by decide) (by decide)
    (by decide) (by decide)

/-- C6: whenever `split_CalcUpperBoundOfOutputTransfer` is called with
`is_last_piece` true and `projected_max` at most the active data size, it
returns `data_end` for every buffer content whatsoever (so the boundary
locator cannot influence the result and the last piece absorbs all remaining
buffered bytes verbatim); and in every run of `split_SplitSource` (any input,
piece count, and positive chunk size), at every such call `projected_max`
equals the active data size, as the debug assertion demands. -/
theorem last_piece_bypass :
    (∀ (buff : List Char) (buff_size data_start data_end projected_max : Int)
       (is_first_block is_end_of_input : Bool),
      projected_max ≤ data_end - data_start + 1 →
      split_CalcUpperBoundOfOutputTransfer buff buff_size data_start data_end
        projected_max is_first_block is_end_of_input true = .ok data_end) ∧
    (∀ (input : List Char) (num_pieces buff_size : Int), 1 ≤ buff_size →
      (split_SplitSource input num_pieces buff_size).1.lastProjOK = true) := by
  constructor
  · intro buff B ds de pm fb eoi hpm
    simp only [split_CalcUpperBoundOfOutputTransfer]
    rw [if_neg (by omega)]
    simp
  · intro input P B hB
    rcases hres : split_SplitSource input P B with ⟨st', err⟩
    obtain ⟨-, hlok, -⟩ := splitPieces_spec input B P P.toNat 0
      (split_InitState input B) (splitInv_init input B hB) (by omega)
      st' err hres
    simp only
    rw [hlok]
    rfl

/-- Witness for C6: a concrete last-piece call returning `data_end`, and a
concrete run whose last-piece-assertion ghost flag stays `true`. -/
theorem last_piece_bypass_witness :
    split_CalcUpperBoundOfOutputTransfer ['x', 'y'] 1 0 1 2 true false true
      = .ok 1 ∧
    (split_SplitSource ['a'] 1 2).1.lastProjOK = true :=
  ⟨last_piece_bypass.1 ['x', 'y'] 1 0 1 2 true false (by decide),
   last_piece_bypass.2 ['a'] 1 2 (by decide)⟩

/-- C7: when the boundary locator returns `SPLIT_BOUND_NOT_FOUND` for the
searched window (a non-last piece with `projected_max` within the buffered
data), `split_CalcUpperBoundOfOutputTransfer` returns `data_end` if the end
of input has been reached, and otherwise fails with the fatal
no-bound-found configuration error (which `split_SplitSource` propagates as
the run's abort) — the record is never silently truncated or split. -/
theorem no_bound_found_behavior (buff : List Char)
    (buff_size data_start data_end projected_max : Int)
    (is_first_block is_end_of_input : Bool)
    (hpm : projected_max ≤ data_end - data_start + 1)
    (hnf : split_FindBound (bufSlice buff data_start data_end)
        (projected_max - 1) (data_end - data_start + 1) is_first_block
      = SPLIT_BOUND_NOT_FOUND) :
    split_CalcUpperBoundOfOutputTransfer buff buff_size data_start data_end
      projected_max is_first_block is_end_of_input false
      = if is_end_of_input then .ok data_end else .error .noBoundFound := by
  simp only [split_CalcUpperBoundOfOutputTransfer]
  rw [if_neg (by omega), hnf]
  simp

/-- Witness for C7: a window with no record bound and input still unread
aborts with the no-bound-found error. -/
theorem no_bound_found_witness :
    split_CalcUpperBoundOfOutputTransfer ['a', 'b'] 4 0 1 2 true false false
      = .error .noBoundFound := by
  have h := no_bound_found_behavior ['a', 'b'] 4 0 1 2 true false
    (by decide) (by decide)
  simpa using h

/-- C8: if at the start of piece `piece_num` the target
`toRead = ceil(bytes_available / (num_pieces - piece_num))` computes to 0
while pieces remain undelivered, the run aborts with the configuration error
reporting `piece_num` — the number of pieces already written — instead of
creating further empty pieces. -/
theorem zero_target_aborts (input : List Char) (buff_size num_pieces : Int)
    (fuel : Nat) (piece_num : Int) (st : SplitSt)
    (hk : piece_num < num_pieces)
    (h0 : pieceTarget st.bytes_available (num_pieces - piece_num) = 0) :
    splitPieces input buff_size num_pieces (fuel + 1) piece_num st
      = (st, some (.cantProduceRequestedPieces piece_num)) := by
  simp only [splitPieces]
  rw [if_neg (by omega), if_pos h0]

/-- Witness for C8: an empty input with two requested pieces aborts
immediately, reporting zero pieces written. -/
theorem zero_target_aborts_witness :
    splitPieces [] 4 2 2 0 (split_InitState [] 4)
      = (split_InitState [] 4, some (.cantProduceRequestedPieces 0)) :=
  zero_target_aborts [] 4 2 1 0 (split_InitState [] 4) (by decide) (by decide)

/-- C9 (amended): when the search loop of `split_FindBound` reaches radius
`i > 0` with both in-range candidates equal to the marker byte and the left
return not suppressed by the first-block condition, it returns the left
boundary `projectedBound - i - 1`, not the right one — the left candidate is
decided first at equal distance, preferring a smaller current piece.  (The
claim as stated, about the whole search rather than the loop iteration that
reaches radius `i`, fails when an earlier radius decides first — see the
counterexample.) -/
theorem left_first_same_radius (buff : List Char) (pb size : Int)
    (fb : Bool) (nnl : Int) (fuel : Nat) (i : Int)
    (hi0 : 0 < i) (hil : i < pb + 1) (hiu : i < size - pb)
    (hl : charAt buff (pb - i) = '>')
    (hr : charAt buff (pb + i) = '>')
    (hsup : i < pb ∨ fb = false) :
    (split_FindBoundGo buff pb size fb (fuel + 1) i nnl).1 = pb - i - 1 :=
  split_FindBoundGo_left_first buff pb size fb nnl fuel i hi0 hil hiu hl hr hsup

/-- Witness for the amended C9: a window with markers on both sides at
radius 1 from the projected bound; the left boundary is returned. -/
theorem left_first_same_radius_witness :
    (split_FindBoundGo ['x', '>', 'y', '>', 'z'] 2 5 true 1 1 0).1
      = 2 - 1 - 1 :=
  left_first_same_radius ['x', '>', 'y', '>', 'z'] 2 5 true 0 0 1
    (by decide) (by decide) (by decide) (by decide) (by decide) (by decide)

/-- C9 (counterexample to the claim as stated): in the window `">>>"` with
projected bound 1, at radius `i = 1` both in-range candidates are the marker
and the left return is not suppressed (`is_first_block = false`), yet
`split_FindBound` returns 0 — the radius-0 decision — and not
`projectedBound - i - 1 = -1`. -/
theorem left_first_counterexample :
    (0 < (1 : Int) ∧ (1 : Int) < 1 + 1 ∧ (1 : Int) < 3 - 1 ∧
     charAt ['>', '>', '>'] (1 - 1) = '>' ∧
     charAt ['>', '>', '>'] (1 + 1) = '>' ∧
     ((1 : Int) < 1 ∨ false = false)) ∧
    split_FindBound ['>', '>', '>'] 1 3 false = 0 ∧
    (0 : Int) ≠ 1 - 1 - 1 := by
  decide

/-- C10 (evaluation at the failing input): for the window of three
line-feed bytes with projected bound 0 — which satisfies the function's
preconditions — the running `num_new_lines` counter reaches 3 at the end of
iteration `i = 2`, so the ghost flag recording
`SPLIT_ASSERT( num_new_lines <= 2)` is `false`: the assertion can fail. -/
theorem newline_assert_fails :
    (0 : Int) ≤ 0 ∧ (0 : Int) < 3 ∧
    split_FindBoundAssertOK ['\n', '\n', '\n'] 0 3 false = false := by
  decide
